import Mathlib

/-!
Verification of the Braille byte-visualization codec (`brailleify.py`).

The embedding mirrors the Python source:

* `shuffle` / `unshuffle` are the bit permutations applied to one byte
  (the spec calls them BitPermute / BitUnpermute).
* `brailleify` (Encode) maps a byte sequence to a `String`, one Braille
  character per byte.
* `unbrailleify` (Decode) maps a `String` back to a byte sequence; the
  `bytes(...)` constructor of the source fails when an element falls
  outside 0..255, which is modelled by returning `Option (List Nat)`.

Python integers are arbitrary precision; `ord(c) - 0x2800` can be
negative, so `unshuffle` takes an `Int` and the masking steps use
`intAnd`, the two's-complement bitwise AND of an `Int` with a
nonnegative mask, exactly as Python computes `&`.
-/

set_option maxRecDepth 100000

namespace Brailleify

def BRAILLE_START_POINT : Nat := 0x2800

/-- Forward bit permutation of one byte (`shuffle` in the source):
each line is one masked-shift term of the Python expression. -/
def shuffle (byte : Nat) : Nat :=
  ((byte &&& 0b00000001) <<< 7) |||
  ((byte &&& 0b00000010) <<< 4) |||
  ((byte &&& 0b00010100) <<< 2) |||
  ((byte &&& 0b00100000) >>> 3) |||
  ((byte &&& 0b01000000) >>> 5) |||
  ((byte &&& 0b10000000) >>> 7) |||
  (byte &&& 0b00001000)

/-- Bitwise AND of an arbitrary-precision integer with a nonnegative
mask, with two's-complement semantics for negative operands: this is
exactly Python's `a & m` for `m ≥ 0`.  For `a = -(n+1)` the bits of `a`
are the complement of the bits of `n`, so `a & m` keeps the bits of `m`
not set in `n`; the bits of `m &&& n` are a subset of those of `m`, so
clearing them is the exclusive or `m ^^^ (m &&& n)`. -/
def intAnd : Int → Nat → Nat
  | Int.ofNat n, m => n &&& m
  | Int.negSucc n, m => m ^^^ (m &&& n)

/-- Inverse bit permutation (`unshuffle` in the source).  The argument
is an `Int` because the caller passes `ord(c) - 0x2800`, which can be
negative; every masked term is nonnegative, so the result is a `Nat`. -/
def unshuffle (byte : Int) : Nat :=
  ((intAnd byte 0b10000000) >>> 7) |||
  ((intAnd byte 0b00100000) >>> 4) |||
  ((intAnd byte 0b01010000) >>> 2) |||
  ((intAnd byte 0b00000100) <<< 3) |||
  ((intAnd byte 0b00000010) <<< 5) |||
  ((intAnd byte 0b00000001) <<< 7) |||
  (intAnd byte 0b00001000)

/-- Encode (`brailleify`): one character per byte, at code point
`0x2800 + shuffle byte`.  `Char.ofNat` is total because the code point
always lies in the Braille block (the source's `chr` never fails). -/
def brailleify (data : List Nat) : String :=
  String.mk (data.map (fun byte => Char.ofNat (BRAILLE_START_POINT + shuffle byte)))

/-- Byte computed for one character of the decoder's input:
`unshuffle(ord(c) - BRAILLE_START_POINT)` in the source. -/
def decodeChar (c : Char) : Nat :=
  unshuffle ((c.toNat : Int) - (BRAILLE_START_POINT : Int))

/-- Decode body: the generator consumed by `bytes(...)`.  `bytes`
rejects the whole input when any element falls outside 0..255
(the values are nonnegative by construction, so only `< 256` is
checked). -/
def unbrailleifyAux : List Char → Option (List Nat)
  | [] => some []
  | c :: cs =>
    if decodeChar c < 256 then
      match unbrailleifyAux cs with
      | some out => some (decodeChar c :: out)
      | none => none
    else none

/-- Decode (`unbrailleify`): one byte per character of the string. -/
def unbrailleify (braille : String) : Option (List Nat) :=
  unbrailleifyAux braille.data

/-- Destination bit index for each source bit index as the SPEC's table
in section 4.1 states it (rows 1, 2 and 4 differ from the code). -/
def specTableDest : Nat → Nat
  | 0 => 7
  | 1 => 4
  | 2 => 6
  | 3 => 3
  | 4 => 5
  | 5 => 2
  | 6 => 1
  | 7 => 0
  | n => n

/-- Destination bit index for each source bit index as the code's
`shuffle` actually moves bits (and as the source docstring's
"87654321 → 15234678" reordering describes). -/
def shuffleDest : Nat → Nat
  | 0 => 7
  | 1 => 5
  | 2 => 4
  | 3 => 3
  | 4 => 6
  | 5 => 2
  | 6 => 1
  | 7 => 0
  | n => n

/-! ### Helper lemmas about `intAnd` and `unshuffle` -/

theorem testBit_false_of_lt_256 {m : Nat} (hm : m < 256) {i : Nat} (hi : 8 ≤ i) :
    m.testBit i = false := by
  apply Nat.testBit_lt_two_pow
  calc m < 256 := hm
    _ = 2 ^ 8 := by norm_num
    _ ≤ 2 ^ i := Nat.pow_le_pow_right (by norm_num) hi

theorem land_mod256 (n m : Nat) (hm : m < 256) : (n % 256) &&& m = n &&& m := by
  apply Nat.eq_of_testBit_eq
  intro i
  rw [Nat.testBit_land, Nat.testBit_land]
  by_cases hi : i < 8
  · have : (256 : Nat) = 2 ^ 8 := by norm_num
    rw [this, Nat.testBit_mod_two_pow]
    simp [hi]
  · rw [testBit_false_of_lt_256 hm (by omega)]
    simp

theorem sub255_testBit : ∀ x, x < 256 → ∀ i, i < 8 →
    (255 - x).testBit i = !(x.testBit i) := by decide

theorem intAnd_eq_emod (a : Int) (m : Nat) (hm : m < 256) :
    intAnd a m = (a % 256).toNat &&& m := by
  cases a with
  | ofNat n =>
    rw [show Int.ofNat n = (n : Int) from rfl]
    have h1 : (((n : Int)) % 256).toNat = n % 256 := by omega
    rw [h1]
    show n &&& m = (n % 256) &&& m
    rw [land_mod256 n m hm]
  | negSucc n =>
    have h1 : ((Int.negSucc n) % 256).toNat = 255 - n % 256 := by
      have : Int.negSucc n = -(n : Int) - 1 := by
        rw [Int.negSucc_eq]; ring
      omega
    rw [h1]
    show m ^^^ (m &&& n) = (255 - n % 256) &&& m
    apply Nat.eq_of_testBit_eq
    intro i
    rw [Nat.testBit_xor, Nat.testBit_land, Nat.testBit_land]
    by_cases hi : i < 8
    · rw [sub255_testBit (n % 256) (Nat.mod_lt n (by norm_num)) i hi]
      have : (256 : Nat) = 2 ^ 8 := by norm_num
      rw [this, Nat.testBit_mod_two_pow]
      simp only [hi, decide_True, Bool.true_and]
      cases m.testBit i <;> cases n.testBit i <;> rfl
    · rw [testBit_false_of_lt_256 hm (by omega)]
      simp

theorem unshuffle_emod (a : Int) : unshuffle (a % 256) = unshuffle a := by
  have h : ∀ m : Nat, m < 256 → intAnd (a % 256) m = intAnd a m := by
    intro m hm
    rw [intAnd_eq_emod _ m hm, intAnd_eq_emod _ m hm]
    have : (a % 256) % 256 = a % 256 := by omega
    rw [this]
  unfold unshuffle
  rw [h 0b10000000 (by norm_num), h 0b00100000 (by norm_num),
    h 0b01010000 (by norm_num), h 0b00000100 (by norm_num),
    h 0b00000010 (by norm_num), h 0b00000001 (by norm_num),
    h 0b00001000 (by norm_num)]

theorem unshuffle_ofNat_lt : ∀ k, k < 256 → unshuffle ((k : Nat) : Int) < 256 := by
  decide

theorem unshuffle_lt (a : Int) : unshuffle a < 256 := by
  rw [← unshuffle_emod a]
  have h0 : (0 : Int) ≤ a % 256 := by omega
  have h1 : (a % 256).toNat < 256 := by omega
  have h2 : a % 256 = (((a % 256).toNat : Nat) : Int) := by omega
  rw [h2]
  exact unshuffle_ofNat_lt _ h1

theorem unshuffle_shuffle : ∀ b, b < 256 → unshuffle ((shuffle b : Nat) : Int) = b := by
  decide

theorem shuffle_unshuffle : ∀ v, v < 256 → shuffle (unshuffle ((v : Nat) : Int)) = v := by
  decide

/-! ### Helper lemmas about the composed codec -/

theorem decodeChar_lt (c : Char) : decodeChar c < 256 :=
  unshuffle_lt _

theorem unbrailleifyAux_eq (l : List Char) :
    unbrailleifyAux l = some (l.map decodeChar) := by
  induction l with
  | nil => rfl
  | cons c cs ih =>
    unfold unbrailleifyAux
    rw [if_pos (decodeChar_lt c), ih]
    rfl

theorem unbrailleify_eq (s : String) :
    unbrailleify s = some (s.data.map decodeChar) :=
  unbrailleifyAux_eq s.data

theorem decodeChar_encode : ∀ b, b < 256 →
    decodeChar (Char.ofNat (BRAILLE_START_POINT + shuffle b)) = b := by
  decide

theorem encode_codepoint_bounds : ∀ b, b < 256 →
    BRAILLE_START_POINT ≤ (Char.ofNat (BRAILLE_START_POINT + shuffle b)).toNat ∧
    (Char.ofNat (BRAILLE_START_POINT + shuffle b)).toNat ≤ 0x28FF := by
  decide

theorem encode_decodeChar (c : Char) (h1 : 0x2800 ≤ c.toNat) (h2 : c.toNat ≤ 0x28FF) :
    Char.ofNat (BRAILLE_START_POINT + shuffle (decodeChar c)) = c := by
  have hv : c.toNat - 0x2800 < 256 := by omega
  have hcast : (c.toNat : Int) - (BRAILLE_START_POINT : Int) =
      ((c.toNat - 0x2800 : Nat) : Int) := by
    unfold BRAILLE_START_POINT
    omega
  unfold decodeChar
  rw [hcast, shuffle_unshuffle (c.toNat - 0x2800) hv]
  have hsum : BRAILLE_START_POINT + (c.toNat - 0x2800) = c.toNat := by
    unfold BRAILLE_START_POINT
    omega
  rw [hsum, Char.ofNat_toNat]

theorem decode_encode_list (data : List Nat) (h : ∀ b ∈ data, b < 256) :
    (data.map (fun b => Char.ofNat (BRAILLE_START_POINT + shuffle b))).map decodeChar
      = data := by
  rw [List.map_map]
  have : ∀ b ∈ data, (decodeChar ∘ fun b => Char.ofNat (BRAILLE_START_POINT + shuffle b)) b
      = id b := by
    intro b hb
    exact decodeChar_encode b (h b hb)
  rw [List.map_congr_left this, List.map_id]

/-! ### Claim theorems -/

/-- C1: for every finite byte sequence, decoding its encoding yields the
original sequence: `Decode(Encode(S)) = S`. -/
theorem C1_decode_encode_roundtrip (data : List Nat) (h : ∀ b ∈ data, b < 256) :
    unbrailleify (brailleify data) = some data := by
  rw [unbrailleify_eq]
  rw [show (brailleify data).data
      = data.map (fun b => Char.ofNat (BRAILLE_START_POINT + shuffle b)) from rfl]
  rw [decode_encode_list data h]

/-- Witness for C1 at the first doctest vector. -/
theorem C1_decode_encode_roundtrip_witness :
    unbrailleify (brailleify [136, 17, 240, 15]) = some [136, 17, 240, 15] :=
  C1_decode_encode_roundtrip [136, 17, 240, 15] (by decide)

/-- C2, counterexample: the spec's table (source bit 1 → destination 4,
2 → 6, 4 → 5) does not describe `shuffle`; at input 2 (source bit 1 set)
the output has destination bit 4 clear. -/
theorem C2_spec_table_counterexample :
    (¬ (∀ b, b < 256 → ∀ i, i < 8 →
      (shuffle b).testBit (specTableDest i) = b.testBit i)) ∧
    (shuffle 2).testBit (specTableDest 1) = false ∧ Nat.testBit 2 1 = true := by
  decide

/-- C2, amended: `shuffle` relocates source bit 1 to destination 5,
bit 2 to 4 and bit 4 to 6 (the other five rows are as the spec's table
states: 0 → 7, 3 → 3, 5 → 2, 6 → 1, 7 → 0). -/
theorem C2_shuffle_bit_mapping : ∀ b, b < 256 → ∀ i, i < 8 →
    (shuffle b).testBit (shuffleDest i) = b.testBit i := by
  decide

/-- Witness for C2 at input 2, source bit 1. -/
theorem C2_shuffle_bit_mapping_witness :
    (shuffle 2).testBit (shuffleDest 1) = Nat.testBit 2 1 :=
  C2_shuffle_bit_mapping 2 (by decide) 1 (by decide)

/-- C3, counterexample: decoding a string containing the character at
code point 0x41, outside the Braille block, does not fail; it returns
the byte 144 for that character. -/
theorem C3_decode_A_counterexample :
    unbrailleify "A" = some [144] ∧ unbrailleify "A" ≠ none := by
  decide

/-- C3, amended: on every input string containing a character whose
code point lies outside [0x2800, 0x28FF], decoding does not reject;
it succeeds with one byte per character, each character decoded from
its offset `codepoint - 0x2800` reduced modulo 256. -/
theorem C3_decode_never_rejects (s : String)
    (_h : ∃ c ∈ s.data, c.toNat < 0x2800 ∨ 0x28FF < c.toNat) :
    ∃ out, unbrailleify s = some out ∧ out.length = s.data.length ∧
      ∀ c ∈ s.data,
        decodeChar c = unshuffle (((c.toNat : Int) - BRAILLE_START_POINT) % 256) := by
  refine ⟨s.data.map decodeChar, unbrailleify_eq s, by simp, ?_⟩
  intro c _
  unfold decodeChar
  rw [unshuffle_emod]

/-- Witness for C3 at the string "A". -/
theorem C3_decode_never_rejects_witness :
    ∃ out, unbrailleify "A" = some out ∧ out.length = "A".data.length ∧
      ∀ c ∈ "A".data,
        decodeChar c = unshuffle (((c.toNat : Int) - BRAILLE_START_POINT) % 256) :=
  C3_decode_never_rejects "A" (by decide)

/-- C4: `unshuffle` inverts `shuffle` and vice versa on every byte, and
`shuffle` is injective on 0..255, hence a permutation of the bytes. -/
theorem C4_bijection : ∀ b, b < 256 →
    unshuffle ((shuffle b : Nat) : Int) = b ∧
    shuffle (unshuffle ((b : Nat) : Int)) = b ∧
    ∀ c, c < 256 → shuffle c = shuffle b → c = b := by
  intro b hb
  refine ⟨unshuffle_shuffle b hb, shuffle_unshuffle b hb, ?_⟩
  intro c hc heq
  have h1 := unshuffle_shuffle c hc
  have h2 := unshuffle_shuffle b hb
  rw [heq] at h1
  omega

/-- Witness for C4 at byte 5. -/
theorem C4_bijection_witness :
    unshuffle ((shuffle 5 : Nat) : Int) = 5 ∧
    shuffle (unshuffle ((5 : Nat) : Int)) = 5 ∧
    ∀ c, c < 256 → shuffle c = shuffle 5 → c = 5 :=
  C4_bijection 5 (by decide)

/-- C5: the four concrete vectors of the spec (and of the source's
doctests) hold exactly. -/
theorem C5_concrete_vectors :
    brailleify [0b10001000, 0b00010001, 0b11110000, 0b00001111] = "⠉⣀⡇⢸" ∧
    brailleify [0b10101010, 0b01010101, 0b11110110, 0b01101111] = "⠭⣒⡷⢾" ∧
    brailleify [0b11001001, 0b10011100, 0b10010011, 0b00111001] = "⢋⡙⣡⣌" ∧
    unbrailleify "⠉⣀⡇⢸" = some [0b10001000, 0b00010001, 0b11110000, 0b00001111] := by
  decide

/-- C6: both directions are elementwise and order preserving: the i-th
character of `Encode S` is the one at code point `0x2800 + shuffle S[i]`,
and when `Decode t` succeeds its i-th byte is the decode of the i-th
character of `t`. -/
theorem C6_elementwise :
    (∀ (data : List Nat), (brailleify data).data.length = data.length ∧
      ∀ i : Nat, ((brailleify data).data)[i]? =
        (data[i]?).map (fun b => Char.ofNat (BRAILLE_START_POINT + shuffle b))) ∧
    (∀ (s : String) (out : List Nat), unbrailleify s = some out →
      out.length = s.data.length ∧
      ∀ i : Nat, out[i]? = (s.data[i]?).map decodeChar) := by
  constructor
  · intro data
    constructor
    · show (data.map _).length = data.length
      rw [List.length_map]
    · intro i
      show (data.map _)[i]? = _
      rw [List.getElem?_map]
  · intro s out h
    rw [unbrailleify_eq] at h
    obtain rfl : s.data.map decodeChar = out := Option.some.inj h
    refine ⟨List.length_map .., fun i => List.getElem?_map ..⟩

/-- Witness for C6 at a one-byte encode and the decode of "A". -/
theorem C6_elementwise_witness :
    ((brailleify [136]).data.length = 1 ∧
      ∀ i : Nat, ((brailleify [136]).data)[i]? =
        (([136] : List Nat)[i]?).map (fun b => Char.ofNat (BRAILLE_START_POINT + shuffle b))) ∧
    ([144].length = "A".data.length ∧
      ∀ i : Nat, ([144] : List Nat)[i]? = ("A".data[i]?).map decodeChar) :=
  ⟨C6_elementwise.1 [136], C6_elementwise.2 "A" [144] (by decide)⟩

/-- C7: `shuffle` of a byte is a byte, and every character of an encoded
byte sequence has its code point inside the Braille block. -/
theorem C7_range :
    (∀ b, b < 256 → shuffle b ≤ 255) ∧
    (∀ data : List Nat, (∀ x ∈ data, x < 256) →
      ∀ c ∈ (brailleify data).data,
        BRAILLE_START_POINT ≤ c.toNat ∧ c.toNat ≤ 0x28FF) := by
  constructor
  · decide
  · intro data hd c hc
    rw [show (brailleify data).data
        = data.map (fun b => Char.ofNat (BRAILLE_START_POINT + shuffle b)) from rfl] at hc
    obtain ⟨b, hb, rfl⟩ := List.mem_map.mp hc
    exact encode_codepoint_bounds b (hd b hb)

/-- Witness for C7 at byte 7. -/
theorem C7_range_witness :
    shuffle 7 ≤ 255 ∧
    (BRAILLE_START_POINT ≤ (Char.ofNat (BRAILLE_START_POINT + shuffle 7)).toNat ∧
      (Char.ofNat (BRAILLE_START_POINT + shuffle 7)).toNat ≤ 0x28FF) :=
  ⟨C7_range.1 7 (by decide),
   C7_range.2 [7] (by decide) (Char.ofNat (BRAILLE_START_POINT + shuffle 7)) (by decide)⟩

/-- C8: encoding the empty sequence gives the empty string, decoding the
empty string gives the empty sequence. -/
theorem C8_empty : brailleify [] = "" ∧ unbrailleify "" = some [] := by
  decide

/-- C9: for every string of in-block characters, encoding its decode
gives the string back: `Encode(Decode(t)) = t`. -/
theorem C9_encode_decode_roundtrip (s : String)
    (h : ∀ c ∈ s.data, BRAILLE_START_POINT ≤ c.toNat ∧ c.toNat ≤ 0x28FF) :
    ∃ out, unbrailleify s = some out ∧ brailleify out = s := by
  refine ⟨s.data.map decodeChar, unbrailleify_eq s, ?_⟩
  unfold brailleify
  rw [List.map_map]
  have hcongr : ∀ c ∈ s.data,
      ((fun byte => Char.ofNat (BRAILLE_START_POINT + shuffle byte)) ∘ decodeChar) c
        = id c := by
    intro c hc
    exact encode_decodeChar c (h c hc).1 (h c hc).2
  rw [List.map_congr_left hcongr, List.map_id]

/-- Witness for C9 at the string "⠉". -/
theorem C9_encode_decode_roundtrip_witness :
    ∃ out, unbrailleify "⠉" = some out ∧ brailleify out = "⠉" :=
  C9_encode_decode_roundtrip "⠉" (by decide)

/-- C10: decoding is total — every string decodes to one byte per
character — and the byte of a character depends only on the residue of
`codepoint - 0x2800` modulo 256. -/
theorem C10_decode_total :
    (∀ s : String, ∃ out, unbrailleify s = some out ∧ out.length = s.data.length) ∧
    (∀ c1 c2 : Char,
      ((c1.toNat : Int) - BRAILLE_START_POINT) % 256
        = ((c2.toNat : Int) - BRAILLE_START_POINT) % 256 →
      decodeChar c1 = decodeChar c2) := by
  constructor
  · intro s
    exact ⟨s.data.map decodeChar, unbrailleify_eq s, by simp⟩
  · intro c1 c2 h
    unfold decodeChar
    rw [← unshuffle_emod ((c1.toNat : Int) - (BRAILLE_START_POINT : Int)),
      ← unshuffle_emod ((c2.toNat : Int) - (BRAILLE_START_POINT : Int)), h]

/-- Witness for C10 at "A" and at the pair 'A', U+2941, whose offsets
are congruent modulo 256. -/
theorem C10_decode_total_witness :
    (∃ out, unbrailleify "A" = some out ∧ out.length = "A".data.length) ∧
    decodeChar 'A' = decodeChar (Char.ofNat 0x2941) :=
  ⟨C10_decode_total.1 "A", C10_decode_total.2 'A' (Char.ofNat 0x2941) (by decide)⟩

end Brailleify
